import Mathlib

/-!
Verification of the `aoc-utils` grid library (dense grid, sparse grid,
transform view) against its specification.

Shallow embedding conventions:
* `Point2<i32>` / `Vec2<i32>` from the `lina` crate are both embedded as `V2`
  (a pair of `Int`); the source's `to_vec` / `to_point` conversions are
  identities under this embedding.
* Machine integers (`i32`, `usize`) are embedded as `Int` / `Nat`; none of the
  modelled operations are anywhere near overflow for the inputs considered.
* Rust panics (failed `assert!` / `debug_assert!` / `expect` / out-of-bounds
  slice indexing / `v[0]` on an empty vector) are modelled as `none` in an
  `Option`-returning embedding.  We model the debug build, in which the
  `debug_assert!(self.contains(index))` guards of `Index`/`IndexMut` are
  active, so indexing a dense grid out of bounds is a panic (`none`).
* `HashMap<Point, C>` is embedded as an association list `List (V2 × C)`
  whose order stands for the map's (arbitrary) iteration order and whose keys
  are unique (`Nodup` hypothesis where it matters); `entry(..).or_insert_with`
  inserts at the front of the list.
* Rust `str` values are embedded as `List Char` (all inputs of interest are
  ASCII, so `str::find`'s byte offset equals the character index and
  `str::len` equals the character count); `char::is_whitespace` is embedded
  as `Char.isWhitespace` (the ASCII fragment of Unicode whitespace).
-/

/-- 2-D integer vector / point (`lina::Point2<i32>` and `lina::Vec2<i32>`). -/
structure V2 where
  x : Int
  y : Int
deriving DecidableEq, Repr

instance : Add V2 := ⟨fun a b => ⟨a.x + b.x, a.y + b.y⟩⟩

instance : Sub V2 := ⟨fun a b => ⟨a.x - b.x, a.y - b.y⟩⟩

/-- `i32::abs` (the argument never equals `i32::MIN` in the modelled code). -/
def iabs (t : Int) : Int := (t.natAbs : Int)

/-- Row-major 2x2 integer matrix `lina::Matrix<i32, 2, 2>`:
rows `[[a, b], [c, d]]`. -/
structure Mat2 where
  a : Int
  b : Int
  c : Int
  d : Int
deriving DecidableEq, Repr

/-- `Matrix::identity()`. -/
def Mat2.identity : Mat2 := ⟨1, 0, 0, 1⟩

/-- Matrix-vector application `matrix.transform(v)` (`M · v`). -/
def Mat2.transform (m : Mat2) (v : V2) : V2 :=
  ⟨m.a * v.x + m.b * v.y, m.c * v.x + m.d * v.y⟩

/-- Matrix-matrix product `m * n`. -/
def Mat2.mul (m n : Mat2) : Mat2 :=
  ⟨m.a * n.a + m.b * n.c, m.a * n.b + m.b * n.d,
   m.c * n.a + m.d * n.c, m.c * n.b + m.d * n.d⟩

/-- Matrix-scalar product `m * k`. -/
def Mat2.smul (m : Mat2) (k : Int) : Mat2 :=
  ⟨m.a * k, m.b * k, m.c * k, m.d * k⟩

/-- `det` of a 2x2 matrix (the `a * d - b * c` computed in `from_grid`). -/
def Mat2.det (m : Mat2) : Int := m.a * m.d - m.b * m.c

/-- Dense grid (`Grid<C>` in `src/grid.rs`): row-major cell storage plus the
row width. -/
structure Grid (C : Type) where
  inner : List C
  width : Nat
deriving DecidableEq, Repr

/-- `Grid::idx`: flat index of the cell at row `y`, column `x`. -/
def Grid.idx (g : Grid C) (y x : Nat) : Nat := y * g.width + x

/-- `Grid::dimension`: `(0,0)` for an empty store, otherwise
`(width, len / width)`.  (For every grid reachable from the constructors
modelled here `width > 0` whenever `inner` is nonempty, so the Rust
division never divides by zero.) -/
def Grid.dimension (g : Grid C) : V2 :=
  if g.inner.length = 0 then ⟨0, 0⟩
  else ⟨(g.width : Int), ((g.inner.length / g.width : Nat) : Int)⟩

/-- `Grid::contains`. -/
def Grid.contains (g : Grid C) (p : V2) : Bool :=
  decide (0 ≤ p.x) && decide (0 ≤ p.y) &&
    decide (g.dimension.y > p.y) && decide (g.dimension.x > p.x)

/-- `Index<Point> for Grid` (debug build): `debug_assert!(contains)` panics on
out-of-bounds points (`none`); otherwise the row-major cell lookup. -/
def Grid.indexAt (g : Grid C) (p : V2) : Option C :=
  if g.contains p then g.inner[g.idx p.y.toNat p.x.toNat]? else none

/-- `Grid::get`. -/
def Grid.get (g : Grid C) (p : V2) : Option C :=
  if g.contains p then g.indexAt p else none

/-- `IndexMut<Point> for Grid` used as an assignment `grid[p] = c`
(debug build): panics (`none`) when out of bounds, otherwise replaces the
cell at the row-major index. -/
def Grid.set? (g : Grid C) (p : V2) (cell : C) : Option (Grid C) :=
  if g.contains p then
    some ⟨g.inner.set (g.idx p.y.toNat p.x.toNat) cell, g.width⟩
  else none

/-- `Grid::new`: width is the length of the first row (`v[0]` panics on an
empty vector, modelled as `none`); storage is the concatenation of all rows.
No equal-length validation is performed. -/
def Grid.new (v : List (List C)) : Option (Grid C) :=
  match v with
  | [] => none
  | r :: _ => some ⟨v.flatten, r.length⟩

/-- The nested row list `(0..dimension.y).map(|y| (0..dimension.x).map(|x|
new(point2(x, y))).collect()).collect()` built by `new_with_dimensions`. -/
def Grid.rowsFor (dimension : V2) (new : V2 → C) : List (List C) :=
  (List.range dimension.y.toNat).map (fun (y : Nat) =>
    (List.range dimension.x.toNat).map (fun (x : Nat) =>
      new ⟨(x : Int), (y : Int)⟩))

/-- `Grid::new_with_dimensions`: generator applied over
`[0, dim.x) x [0, dim.y)` in row-major order, then `Grid::new`. -/
def Grid.new_with_dimensions (dimension : V2) (new : V2 → C) : Option (Grid C) :=
  Grid.new (Grid.rowsFor dimension new)

/-- `Grid::new_with_dimensions_uniform`. -/
def Grid.new_with_dimensions_uniform (dimension : V2) (new : C) : Option (Grid C) :=
  Grid.new_with_dimensions dimension (fun _ => new)

/-- `UP_RIGHT_DOWN_LEFT`. -/
def UP_RIGHT_DOWN_LEFT : List V2 := [⟨0, -1⟩, ⟨1, 0⟩, ⟨0, 1⟩, ⟨-1, 0⟩]

/-- `NEIGHBOURS` (note: `vec2(x, y)`, so `⟨-1, 0⟩` is one step west). -/
def NEIGHBOURS : List V2 :=
  [⟨-1, -1⟩, ⟨-1, 0⟩, ⟨-1, 1⟩, ⟨0, -1⟩, ⟨0, 1⟩, ⟨1, -1⟩, ⟨1, 0⟩, ⟨1, 1⟩]

/-- Mapping a panicking (`Option`-valued) function over a list: the first
panic (`none`) aborts the whole computation, as a Rust panic inside an
iterator chain would. -/
def traverseOption (f : α → Option β) : List α → Option (List β)
  | [] => some []
  | a :: l => do
      let b ← f a
      let bs ← traverseOption f l
      pure (b :: bs)

/-- Left fold with a panicking (`Option`-valued) step function. -/
def foldlOption (f : β → α → Option β) : β → List α → Option β
  | b, [] => some b
  | b, a :: l =>
    match f b a with
    | some b2 => foldlOption f b2 l
    | none => none

/-- `Grid::neighbours`: offset, filter by `contains`, then pair each point
with its cell through the (panicking) index. -/
def Grid.neighbours (g : Grid C) (src : V2) : Option (List (V2 × C)) :=
  traverseOption (fun p => (g.indexAt p).map (fun c => (p, c)))
    ((NEIGHBOURS.map (fun d => src + d)).filter (fun n => g.contains n))

/-- `Grid::adjacent` (same shape as `neighbours` with the four orthogonal
offsets). -/
def Grid.adjacent (g : Grid C) (src : V2) : Option (List (V2 × C)) :=
  traverseOption (fun p => (g.indexAt p).map (fun c => (p, c)))
    ((UP_RIGHT_DOWN_LEFT.map (fun d => src + d)).filter (fun n => g.contains n))

/-- One component of the `((abs_dim_tfn - dim_tfn) / 2)` offset in
`transform_keep_positive_quadrant` (`i32` division truncates toward zero,
i.e. `Int.tdiv`). -/
def offc (t : Int) : Int := (iabs t - t).tdiv 2

/-- `transform_keep_positive_quadrant` (elementwise over the two
coordinates): shrink the dimension to the last valid coordinate, transform
both the point and that corner, and shift any axis the matrix sent negative
back to the positive quadrant. -/
def transform_keep_positive_quadrant (dimension : V2) (matrix : Mat2) (point : V2) : V2 :=
  let d : V2 := dimension - ⟨1, 1⟩
  let transformed_idx := matrix.transform point
  let dim_tfn := matrix.transform d
  ⟨offc dim_tfn.x + transformed_idx.x, offc dim_tfn.y + transformed_idx.y⟩

/-- `TransformGrid<'a, C>`: the borrowed grid is embedded by value. -/
structure TransformGrid (C : Type) where
  matrix : Mat2
  matrix_inv : Mat2
  grid : Grid C
deriving DecidableEq, Repr

/-- `TransformGrid::dimension`: `|M · sourceDimension|` elementwise. -/
def TransformGrid.dimension (t : TransformGrid C) : V2 :=
  ⟨iabs (t.matrix.transform t.grid.dimension).x,
   iabs (t.matrix.transform t.grid.dimension).y⟩

/-- `TransformGrid::transform_point`. -/
def TransformGrid.transform_point (t : TransformGrid C) (index : V2) : V2 :=
  transform_keep_positive_quadrant t.grid.dimension t.matrix index

/-- `TransformGrid::inverse_point`. -/
def TransformGrid.inverse_point (t : TransformGrid C) (index : V2) : V2 :=
  transform_keep_positive_quadrant t.dimension t.matrix_inv index

/-- `TransformGrid::contains`. -/
def TransformGrid.contains (t : TransformGrid C) (coord : V2) : Bool :=
  t.grid.contains (t.inverse_point coord)

/-- `TransformGrid::from_grid`: `assert!(det == 1 || det == -1)` is a panic
(`none`) on any other determinant; the stored inverse is the adjugate
`[[d, -b], [-c, a]]` scaled by `det`. -/
def TransformGrid.from_grid (grid : Grid C) (transform : Mat2) : Option (TransformGrid C) :=
  let det := transform.a * transform.d - transform.b * transform.c
  if det = 1 ∨ det = -1 then
    some ⟨transform, (Mat2.mk transform.d (-transform.b) (-transform.c) transform.a).smul det, grid⟩
  else none

/-- `TransformGrid::rot`: `count`-fold left composition of the base quarter
turn `[[0, -1], [1, 0]]` onto the identity. -/
def TransformGrid.rot (count : Nat) : Mat2 :=
  (List.range count).foldl (fun a _ => Mat2.mul ⟨0, -1, 1, 0⟩ a) Mat2.identity

/-- Sparse grid (`SparseGrid<C>` in `src/grid/sparse.rs`); the `HashMap` is
embedded as an association list with unique keys, in iteration order. -/
structure SparseGrid (C : Type) where
  inner : List (V2 × C)
  default : C
deriving DecidableEq, Repr

/-- `self.inner.keys()` (in iteration order). -/
def SparseGrid.keys (g : SparseGrid C) : List V2 := g.inner.map Prod.fst

/-- `Index<Point> for SparseGrid`: stored value, or the default when the key
is absent; the map is untouched (the embedding returns no state at all). -/
def SparseGrid.index (g : SparseGrid C) (p : V2) : C :=
  (g.inner.lookup p).getD g.default

/-- `IndexMut<Point> for SparseGrid`:
`self.inner.entry(index).or_insert_with(|| self.default.clone())` — a clone
of the default is inserted when the key is absent; the result is the value
the returned mutable handle points at, paired with the map state after the
call. -/
def SparseGrid.index_mut (g : SparseGrid C) (p : V2) : C × SparseGrid C :=
  match g.inner.lookup p with
  | some v => (v, g)
  | none => (g.default, ⟨(p, g.default) :: g.inner, g.default⟩)

/-- `SparseGrid::contains`: `self.inner.contains_key(&coord)`. -/
def SparseGrid.contains (g : SparseGrid C) (p : V2) : Bool :=
  (g.inner.lookup p).isSome

/-- `SparseGrid::get`: `Some(self.inner.get(&p).unwrap_or(&self.default))`. -/
def SparseGrid.get (g : SparseGrid C) (p : V2) : Option C :=
  some ((g.inner.lookup p).getD g.default)

/-- `Point::min` componentwise (the `MinMax` impl in `src/lib.rs`). -/
def V2.pmin (a b : V2) : V2 := ⟨min a.x b.x, min a.y b.y⟩

/-- `Point::max` componentwise. -/
def V2.pmax (a b : V2) : V2 := ⟨max a.x b.x, max a.y b.y⟩

/-- `MinMaxIterator::min_elementwise`: `Iterator::reduce` with `MinMax::min`
(left fold seeded by the first element); `expect` panics (`none`) on an
empty iterator. -/
def minElementwise (l : List V2) : Option V2 :=
  match l with
  | [] => none
  | k :: r => some (r.foldl V2.pmin k)

/-- `MinMaxIterator::max_elementwise`. -/
def maxElementwise (l : List V2) : Option V2 :=
  match l with
  | [] => none
  | k :: r => some (r.foldl V2.pmax k)

/-- `SparseGrid::dimension`: elementwise max minus elementwise min of the
keys, plus `(1,1)`; panics (`none`) when the key set is empty. -/
def SparseGrid.dimension (g : SparseGrid C) : Option V2 :=
  match maxElementwise g.keys, minElementwise g.keys with
  | some mx, some mn => some (mx - mn + ⟨1, 1⟩)
  | _, _ => none

/-- `From<SparseGrid<C>> for Grid<C>`: bounding-box dimension, a uniform
grid of defaults, then every populated entry written at `key - min` through
the (panicking) dense-grid index. -/
def sparseGridToGrid (g : SparseGrid C) : Option (Grid C) :=
  match g.dimension, minElementwise g.keys with
  | some dim, some mn =>
    match Grid.new_with_dimensions_uniform dim g.default with
    | some base => foldlOption (fun acc pc => acc.set? (pc.1 - mn) pc.2) base g.inner
    | none => none
  | _, _ => none

/-- Componentwise description of `V2` addition. -/
theorem V2.add_def (a b : V2) : a + b = ⟨a.x + b.x, a.y + b.y⟩ := rfl

/-- Componentwise description of `V2` subtraction. -/
theorem V2.sub_def (a b : V2) : a - b = ⟨a.x - b.x, a.y - b.y⟩ := rfl

/-- The anchoring offset is `0` on axes the matrix kept non-negative and the
exact reflection distance on axes it sent negative. -/
theorem offc_eq (t : Int) : offc t = if 0 ≤ t then 0 else -t := by
  have h : iabs t - t = 2 * (if 0 ≤ t then 0 else -t) := by
    unfold iabs; split <;> omega
  rw [offc, h, Int.mul_tdiv_cancel_left _ (by norm_num)]

/-- Propositional reading of `Grid.contains`. -/
theorem Grid.contains_iff (g : Grid C) (p : V2) :
    g.contains p = true ↔
      0 ≤ p.x ∧ 0 ≤ p.y ∧ p.y < g.dimension.y ∧ p.x < g.dimension.x := by
  simp [Grid.contains, and_assoc]

/-- An in-bounds point's flat index is inside the storage. -/
theorem Grid.idx_lt_of_contains (g : Grid C) (p : V2) (h : g.contains p = true) :
    g.idx p.y.toNat p.x.toNat < g.inner.length := by
  rw [Grid.contains_iff] at h
  obtain ⟨hx0, hy0, hy, hx⟩ := h
  unfold Grid.dimension at hy hx
  by_cases hlen : g.inner.length = 0
  · simp [hlen] at hx
    omega
  · simp only [hlen, if_false] at hy hx
    have hyn : p.y.toNat < g.inner.length / g.width := by omega
    have hxn : p.x.toNat < g.width := by omega
    have h1 : p.y.toNat * g.width + g.width ≤ (g.inner.length / g.width) * g.width := by
      rw [show p.y.toNat * g.width + g.width = p.y.toNat.succ * g.width from by
        rw [Nat.succ_mul]]
      exact Nat.mul_le_mul_right g.width (Nat.succ_le_of_lt hyn)
    have h2 : (g.inner.length / g.width) * g.width ≤ g.inner.length :=
      Nat.div_mul_le_self _ _
    unfold Grid.idx
    omega

/-- Indexing never panics at an in-bounds point. -/
theorem Grid.indexAt_isSome_of_contains (g : Grid C) (p : V2)
    (h : g.contains p = true) : (g.indexAt p).isSome = true := by
  unfold Grid.indexAt
  rw [if_pos h]
  simp [List.getElem?_eq_getElem (Grid.idx_lt_of_contains g p h)]

/-- `get` agrees with the panicking index everywhere (both are guarded by
`contains`). -/
theorem Grid.get_eq_indexAt (g : Grid C) (p : V2) : g.get p = g.indexAt p := by
  unfold Grid.get Grid.indexAt
  split <;> simp_all

/-- C5: on a dense grid, `contains` is exactly the componentwise bounds
check against `dimension`, `get` at a contained point is `some` of the cell
that indexing returns, and `get` at any other point is `none`. -/
theorem grid_get_contains_spec (C : Type) (g : Grid C) (p : V2) :
    (g.contains p = true ↔
      0 ≤ p.x ∧ p.x < g.dimension.x ∧ 0 ≤ p.y ∧ p.y < g.dimension.y) ∧
    (g.contains p = true → g.get p = g.indexAt p ∧ (g.indexAt p).isSome = true) ∧
    (¬ g.contains p = true → g.get p = none) := by
  refine ⟨?_, fun h => ⟨Grid.get_eq_indexAt g p, Grid.indexAt_isSome_of_contains g p h⟩, ?_⟩
  · rw [Grid.contains_iff]; tauto
  · intro h
    unfold Grid.get
    rw [if_neg h]

/-- The grid of the source test `"###\n...\n..."`. -/
def gridEx3 : Grid Char := ⟨['#', '#', '#', '.', '.', '.', '.', '.', '.'], 3⟩

/-- C5 witness: the spec instantiated on the source's own test grid, at the
in-bounds point `(1,1)` and the out-of-bounds point `(1,1) + 8·(1,-1)`. -/
theorem grid_get_contains_witness :
    gridEx3.get ⟨1, 1⟩ = gridEx3.indexAt ⟨1, 1⟩ ∧
    (gridEx3.indexAt ⟨1, 1⟩).isSome = true ∧
    gridEx3.get ⟨9, -7⟩ = none := by
  refine ⟨((grid_get_contains_spec Char gridEx3 ⟨1, 1⟩).2.1 (by decide)).1,
    ((grid_get_contains_spec Char gridEx3 ⟨1, 1⟩).2.1 (by decide)).2,
    (grid_get_contains_spec Char gridEx3 ⟨9, -7⟩).2.2 (by decide)⟩

/-- A lookup succeeds exactly on the populated keys. -/
theorem lookup_isSome_iff_mem (l : List (V2 × C)) (p : V2) :
    (l.lookup p).isSome = true ↔ p ∈ l.map Prod.fst := by
  induction l with
  | nil => simp [List.lookup]
  | cons kv t ih =>
    obtain ⟨k, v⟩ := kv
    by_cases h : p = k
    · subst h
      simp [List.lookup]
    · have hbeq : (p == k) = false := by simp [h]
      simp [List.lookup, hbeq, ih, h]

/-- C9: sparse-grid `get` always returns `some` (the stored value on a
populated key, the default otherwise) while `contains` tests key presence,
so — unlike the dense grid — `!contains p` does not force `get p = none`. -/
theorem sparse_get_contains_spec (C : Type) (g : SparseGrid C) (p : V2) :
    (g.get p).isSome = true ∧
    (∀ v, g.inner.lookup p = some v → g.get p = some v) ∧
    (g.inner.lookup p = none → g.get p = some g.default) ∧
    (g.contains p = true ↔ p ∈ g.keys) ∧
    (g.contains p = false → g.get p = some g.default) := by
  refine ⟨rfl, ?_, ?_, ?_, ?_⟩
  · intro v hv
    simp [SparseGrid.get, hv]
  · intro hv
    simp [SparseGrid.get, hv]
  · rw [SparseGrid.contains]
    exact lookup_isSome_iff_mem g.inner p
  · intro hc
    rw [SparseGrid.contains] at hc
    cases hl : g.inner.lookup p with
    | none => simp [SparseGrid.get, hl]
    | some v => rw [hl] at hc; simp at hc

/-- The sparse grid of the spec's conversion example:
keys `(0,0) ↦ A`, `(2,3) ↦ B`, default `Z`. -/
def sparseEx : SparseGrid Char := ⟨[(⟨0, 0⟩, 'A'), (⟨2, 3⟩, 'B')], 'Z'⟩

/-- C9 witness: on the example sparse grid, the point `(9,9)` is not a
populated key, yet `get` still returns the default rather than `none`. -/
theorem sparse_get_contains_witness :
    (sparseEx.get ⟨9, 9⟩).isSome = true ∧
    sparseEx.contains ⟨9, 9⟩ = false ∧
    sparseEx.get ⟨9, 9⟩ = some 'Z' ∧
    sparseEx.get ⟨2, 3⟩ = some 'B' := by
  refine ⟨(sparse_get_contains_spec Char sparseEx ⟨9, 9⟩).1, by decide,
    (sparse_get_contains_spec Char sparseEx ⟨9, 9⟩).2.2.2.2 (by decide),
    (sparse_get_contains_spec Char sparseEx ⟨2, 3⟩).2.1 'B' (by decide)⟩

/-- C6: reading a sparse grid through the immutable index returns the stored
value when present and the default otherwise without touching the map (the
embedding of the read path produces no new state at all); mutable indexing
at an absent key inserts a clone of the default and hands back that entry,
and leaves every other key's binding unchanged. -/
theorem sparse_index_mut_spec (C : Type) (g : SparseGrid C) (p : V2) :
    (∀ v, g.inner.lookup p = some v → g.index p = v ∧ g.index_mut p = (v, g)) ∧
    (g.inner.lookup p = none →
      g.index p = g.default ∧
      (g.index_mut p).1 = g.default ∧
      ((g.index_mut p).2).inner = (p, g.default) :: g.inner ∧
      ∀ q, q ≠ p → ((g.index_mut p).2).inner.lookup q = g.inner.lookup q) ∧
    ((g.index_mut p).2).inner.lookup p = some ((g.index_mut p).1) := by
  refine ⟨?_, ?_, ?_⟩
  · intro v hv
    simp [SparseGrid.index, SparseGrid.index_mut, hv]
  · intro hv
    refine ⟨by simp [SparseGrid.index, hv], by simp [SparseGrid.index_mut, hv],
      by simp [SparseGrid.index_mut, hv], ?_⟩
    intro q hq
    have hbeq : (q == p) = false := by simp [hq]
    simp [SparseGrid.index_mut, hv, List.lookup, hbeq]
  · unfold SparseGrid.index_mut
    cases hv : g.inner.lookup p with
    | some v => simpa using hv
    | none => simp [List.lookup]

/-- C6 witness: the spec instantiated on the example sparse grid at the
absent key `(1,1)` and the present key `(0,0)`. -/
theorem sparse_index_mut_witness :
    sparseEx.index ⟨1, 1⟩ = 'Z' ∧
    ((sparseEx.index_mut ⟨1, 1⟩).2).inner = (⟨1, 1⟩, 'Z') :: sparseEx.inner ∧
    sparseEx.index_mut ⟨0, 0⟩ = ('A', sparseEx) := by
  refine ⟨((sparse_index_mut_spec Char sparseEx ⟨1, 1⟩).2.1 (by decide)).1,
    ((sparse_index_mut_spec Char sparseEx ⟨1, 1⟩).2.1 (by decide)).2.2.1,
    ((sparse_index_mut_spec Char sparseEx ⟨0, 0⟩).1 'A' (by decide)).2⟩

/-- C10 (amended): `Grid::new` does no validation — any non-empty row list
yields a grid whose width is the first row's length and whose storage is the
concatenation of all rows; the empty row list panics; and an unequal-length
input can leave `length % width ≠ 0` with no abort. -/
theorem grid_new_no_validation (C : Type) (r : List C) (rest : List (List C)) :
    Grid.new (r :: rest) = some ⟨(r :: rest).flatten, r.length⟩ ∧
    Grid.new ([] : List (List C)) = none ∧
    Grid.new [['a', 'b'], ['c']] = some ⟨['a', 'b', 'c'], 2⟩ ∧
    (Grid.mk ['a', 'b', 'c'] 2).inner.length % (Grid.mk ['a', 'b', 'c'] 2).width = 1 := by
  exact ⟨rfl, rfl, by decide, by decide⟩

/-- C10 counterexample: `[['a'], ['b','c']]` has rows of unequal length, yet
the resulting grid's storage length (3) IS a multiple of its width (1) — the
claim's "consequently the invariant is violated" fails at this input. -/
theorem grid_new_counterexample :
    Grid.new [['a'], ['b', 'c']] = some ⟨['a', 'b', 'c'], 1⟩ ∧
    (['b', 'c'] : List Char).length ≠ (['a'] : List Char).length ∧
    (Grid.mk ['a', 'b', 'c'] 1).inner.length % (Grid.mk ['a', 'b', 'c'] 1).width = 0 := by
  decide

/-- C4: `from_grid` panics exactly when `det(M)` is neither `+1` nor `-1`;
on success the stored matrix is `M` itself, the grid is the wrapped grid,
and the stored adjugate-times-determinant matrix is an exact two-sided
integer inverse of `M`. -/
theorem from_grid_unimodular_spec (C : Type) (g : Grid C) (m : Mat2) :
    ((TransformGrid.from_grid g m).isSome = true ↔ (m.det = 1 ∨ m.det = -1)) ∧
    (∀ t, TransformGrid.from_grid g m = some t →
      t.matrix = m ∧ t.grid = g ∧
      Mat2.mul t.matrix_inv m = Mat2.identity ∧
      Mat2.mul m t.matrix_inv = Mat2.identity) := by
  constructor
  · simp only [TransformGrid.from_grid, Mat2.det]
    split <;> simp_all
  · intro t ht
    simp only [TransformGrid.from_grid] at ht
    split at ht
    · rename_i hdet
      obtain rfl : (⟨m, (Mat2.mk m.d (-m.b) (-m.c) m.a).smul (m.a * m.d - m.b * m.c), g⟩
          : TransformGrid C) = t := Option.some.inj ht
      refine ⟨rfl, rfl, ?_, ?_⟩ <;>
        · simp only [Mat2.mul, Mat2.smul, Mat2.identity, Mat2.mk.injEq]
          rcases hdet with h | h
          · exact ⟨by linear_combination (m.a * m.d - m.b * m.c + 1) * h, by ring,
              by ring, by linear_combination (m.a * m.d - m.b * m.c + 1) * h⟩
          · exact ⟨by linear_combination (m.a * m.d - m.b * m.c - 1) * h, by ring,
              by ring, by linear_combination (m.a * m.d - m.b * m.c - 1) * h⟩
    · exact absurd ht (by simp)

/-- C4 witness: a quarter-turn matrix (det `1`) is accepted and its stored
inverse multiplies back to the identity on both sides; a scaling matrix
(det `2`) is rejected. -/
theorem from_grid_unimodular_witness :
    (TransformGrid.from_grid gridEx3 (Mat2.mk 0 (-1) 1 0)).isSome = true ∧
    Mat2.mul (Mat2.mk 0 1 (-1) 0) (Mat2.mk 0 (-1) 1 0) = Mat2.identity ∧
    Mat2.mul (Mat2.mk 0 (-1) 1 0) (Mat2.mk 0 1 (-1) 0) = Mat2.identity ∧
    (TransformGrid.from_grid gridEx3 (Mat2.mk 2 0 0 1)).isSome = false := by
  have h2 := (from_grid_unimodular_spec Char gridEx3 (Mat2.mk 0 (-1) 1 0)).2
    ⟨Mat2.mk 0 (-1) 1 0, Mat2.mk 0 1 (-1) 0, gridEx3⟩ (by decide)
  refine ⟨(from_grid_unimodular_spec Char gridEx3 (Mat2.mk 0 (-1) 1 0)).1.mpr (by decide),
    h2.2.2.1, h2.2.2.2, ?_⟩
  have h3 := (from_grid_unimodular_spec Char gridEx3 (Mat2.mk 2 0 0 1)).1
  cases hs : (TransformGrid.from_grid gridEx3 (Mat2.mk 2 0 0 1)).isSome with
  | false => rfl
  | true =>
    have := h3.mp hs
    simp only [Mat2.det] at this
    omega

/-- Under the `contains` filter the panicking pairing step of `neighbours`
always succeeds, and produces exactly the `filterMap` of `get`. -/
theorem filter_traverse_eq_filterMap_get (g : Grid C) (l : List V2) :
    traverseOption (fun q => (g.indexAt q).map (fun c => (q, c)))
        (l.filter (fun n => g.contains n)) =
      some (l.filterMap (fun q => (g.get q).map (fun c => (q, c)))) := by
  induction l with
  | nil => rfl
  | cons a t ih =>
    rw [List.filter_cons, List.filterMap_cons]
    by_cases h : g.contains a
    · obtain ⟨c, hc⟩ := Option.isSome_iff_exists.mp (Grid.indexAt_isSome_of_contains g a h)
      have hget : g.get a = some c := (Grid.get_eq_indexAt g a).trans hc
      simp [h, traverseOption, hc, ih, hget]
    · have hget : g.get a = none := by unfold Grid.get; rw [if_neg h]
      simp [h, ih, hget]

/-- C3 (amended): `neighbours` never panics and returns the in-bounds
members of the 8-connected neighbourhood each paired with its cell, in the
fixed order NW, W, SW, N, S, NE, E, SE — a column-major scan of the 3x3
block around `p` (x outer, y inner, centre skipped), where north decreases
`y`. -/
theorem grid_neighbours_spec (C : Type) (g : Grid C) (p : V2) :
    g.neighbours p = some
      (([⟨p.x - 1, p.y - 1⟩, ⟨p.x - 1, p.y⟩, ⟨p.x - 1, p.y + 1⟩,
         ⟨p.x, p.y - 1⟩, ⟨p.x, p.y + 1⟩,
         ⟨p.x + 1, p.y - 1⟩, ⟨p.x + 1, p.y⟩, ⟨p.x + 1, p.y + 1⟩] : List V2).filterMap
        (fun q => (g.get q).map (fun c => (q, c)))) := by
  have hmap : NEIGHBOURS.map (fun d => p + d) =
      [⟨p.x - 1, p.y - 1⟩, ⟨p.x - 1, p.y⟩, ⟨p.x - 1, p.y + 1⟩,
       ⟨p.x, p.y - 1⟩, ⟨p.x, p.y + 1⟩,
       ⟨p.x + 1, p.y - 1⟩, ⟨p.x + 1, p.y⟩, ⟨p.x + 1, p.y + 1⟩] := by
    simp [NEIGHBOURS, V2.add_def, sub_eq_add_neg]
  unfold Grid.neighbours
  rw [hmap, filter_traverse_eq_filterMap_get]

/-- C3 counterexample: on the 3x3 test grid at the centre `(1,1)` all eight
neighbours are in bounds; the returned order is the column-major
NW, W, SW, N, S, NE, E, SE — not the claimed row-major NW, N, NE, W, E,
SW, S, SE. -/
theorem grid_neighbours_counterexample :
    (gridEx3.neighbours ⟨1, 1⟩).map (fun l => l.map Prod.fst) =
      some [⟨0, 0⟩, ⟨0, 1⟩, ⟨0, 2⟩, ⟨1, 0⟩, ⟨1, 2⟩, ⟨2, 0⟩, ⟨2, 1⟩, ⟨2, 2⟩] ∧
    (gridEx3.neighbours ⟨1, 1⟩).map (fun l => l.map Prod.fst) ≠
      some [⟨0, 0⟩, ⟨1, 0⟩, ⟨2, 0⟩, ⟨0, 1⟩, ⟨2, 1⟩, ⟨0, 2⟩, ⟨1, 2⟩, ⟨2, 2⟩] := by
  decide

/-- The componentwise fold of `Point::min` computes the fold of `min` on
each coordinate. -/
theorem foldl_pmin_x (r : List V2) (k : V2) :
    (r.foldl V2.pmin k).x = (r.map V2.x).foldl min k.x ∧
    (r.foldl V2.pmin k).y = (r.map V2.y).foldl min k.y := by
  induction r generalizing k with
  | nil => exact ⟨rfl, rfl⟩
  | cons a t ih => exact ih (V2.pmin k a)

/-- The componentwise fold of `Point::max` computes the fold of `max` on
each coordinate. -/
theorem foldl_pmax_x (r : List V2) (k : V2) :
    (r.foldl V2.pmax k).x = (r.map V2.x).foldl max k.x ∧
    (r.foldl V2.pmax k).y = (r.map V2.y).foldl max k.y := by
  induction r generalizing k with
  | nil => exact ⟨rfl, rfl⟩
  | cons a t ih => exact ih (V2.pmax k a)

/-- C7: for a sparse grid with at least one populated key, `dimension` is
the elementwise max of the keys minus the elementwise min plus `(1,1)`
(each coordinate's extremum being the standard `List.max?`/`List.min?` of
that coordinate over all keys); with no populated keys it panics. -/
theorem sparse_dimension_spec (C : Type) (g : SparseGrid C) :
    (g.inner = [] → g.dimension = none) ∧
    (g.inner ≠ [] → ∃ mx my nx ny : Int,
      (g.keys.map V2.x).max? = some mx ∧ (g.keys.map V2.y).max? = some my ∧
      (g.keys.map V2.x).min? = some nx ∧ (g.keys.map V2.y).min? = some ny ∧
      g.dimension = some ⟨mx - nx + 1, my - ny + 1⟩) := by
  constructor
  · intro h
    have hk : g.keys = [] := by simp [SparseGrid.keys, h]
    simp [SparseGrid.dimension, hk, maxElementwise, minElementwise]
  · intro h
    have hk : g.keys ≠ [] := by simpa [SparseGrid.keys] using h
    cases hkeys : g.keys with
    | nil => exact absurd hkeys hk
    | cons k r =>
      refine ⟨(r.foldl V2.pmax k).x, (r.foldl V2.pmax k).y,
              (r.foldl V2.pmin k).x, (r.foldl V2.pmin k).y, ?_, ?_, ?_, ?_, ?_⟩
      · simp [hkeys, List.max?, (foldl_pmax_x r k).1]
      · simp [hkeys, List.max?, (foldl_pmax_x r k).2]
      · simp [hkeys, List.min?, (foldl_pmin_x r k).1]
      · simp [hkeys, List.min?, (foldl_pmin_x r k).2]
      · simp [SparseGrid.dimension, hkeys, maxElementwise, minElementwise,
          V2.sub_def, V2.add_def]

/-- C7 witness: the example sparse grid (keys `(0,0)` and `(2,3)`) has
dimension `(3,4)`. -/
theorem sparse_dimension_witness : sparseEx.dimension = some ⟨3, 4⟩ := by
  obtain ⟨mx, my, nx, ny, h1, h2, h3, h4, h5⟩ :=
    (sparse_dimension_spec Char sparseEx).2 (by decide)
  have e1 : mx = 2 := by
    have h := (by decide : (sparseEx.keys.map V2.x).max? = some 2)
    rw [h1] at h
    exact (Option.some.inj h)
  have e2 : my = 3 := by
    have h := (by decide : (sparseEx.keys.map V2.y).max? = some 3)
    rw [h2] at h
    exact (Option.some.inj h)
  have e3 : nx = 0 := by
    have h := (by decide : (sparseEx.keys.map V2.x).min? = some 0)
    rw [h3] at h
    exact (Option.some.inj h)
  have e4 : ny = 0 := by
    have h := (by decide : (sparseEx.keys.map V2.y).min? = some 0)
    rw [h4] at h
    exact (Option.some.inj h)
  rw [h5, e1, e2, e3, e4]
  norm_num

/-- The elementwise minimum of the keys bounds every key from below. -/
theorem minElementwise_le (l : List V2) (mn : V2) (h : minElementwise l = some mn) :
    ∀ k ∈ l, mn.x ≤ k.x ∧ mn.y ≤ k.y := by
  cases l with
  | nil => simp [minElementwise] at h
  | cons k0 r =>
    obtain rfl : r.foldl V2.pmin k0 = mn := Option.some.inj (by simpa [minElementwise] using h)
    clear h
    have main : ∀ (r : List V2) (acc : V2),
        ((r.foldl V2.pmin acc).x ≤ acc.x ∧ (r.foldl V2.pmin acc).y ≤ acc.y) ∧
        ∀ k ∈ r, (r.foldl V2.pmin acc).x ≤ k.x ∧ (r.foldl V2.pmin acc).y ≤ k.y := by
      intro r
      induction r with
      | nil => exact fun acc => ⟨⟨le_refl _, le_refl _⟩, by simp⟩
      | cons a t ih =>
        intro acc
        simp only [List.foldl_cons]
        have h1 := (ih (V2.pmin acc a)).1
        have h2 := (ih (V2.pmin acc a)).2
        have hax : (V2.pmin acc a).x = min acc.x a.x := rfl
        have hay : (V2.pmin acc a).y = min acc.y a.y := rfl
        refine ⟨⟨?_, ?_⟩, ?_⟩
        · omega
        · omega
        · intro k hk
          rcases List.mem_cons.mp hk with rfl | hk
          · constructor <;> omega
          · exact h2 k hk
    intro k hk
    rcases List.mem_cons.mp hk with rfl | hk
    · exact (main r k).1
    · exact (main r k0).2 k hk

/-- The elementwise maximum of the keys bounds every key from above. -/
theorem le_maxElementwise (l : List V2) (mx : V2) (h : maxElementwise l = some mx) :
    ∀ k ∈ l, k.x ≤ mx.x ∧ k.y ≤ mx.y := by
  cases l with
  | nil => simp [maxElementwise] at h
  | cons k0 r =>
    obtain rfl : r.foldl V2.pmax k0 = mx := Option.some.inj (by simpa [maxElementwise] using h)
    clear h
    have main : ∀ (r : List V2) (acc : V2),
        (acc.x ≤ (r.foldl V2.pmax acc).x ∧ acc.y ≤ (r.foldl V2.pmax acc).y) ∧
        ∀ k ∈ r, k.x ≤ (r.foldl V2.pmax acc).x ∧ k.y ≤ (r.foldl V2.pmax acc).y := by
      intro r
      induction r with
      | nil => exact fun acc => ⟨⟨le_refl _, le_refl _⟩, by simp⟩
      | cons a t ih =>
        intro acc
        simp only [List.foldl_cons]
        have h1 := (ih (V2.pmax acc a)).1
        have h2 := (ih (V2.pmax acc a)).2
        have hax : (V2.pmax acc a).x = max acc.x a.x := rfl
        have hay : (V2.pmax acc a).y = max acc.y a.y := rfl
        refine ⟨⟨?_, ?_⟩, ?_⟩
        · omega
        · omega
        · intro k hk
          rcases List.mem_cons.mp hk with rfl | hk
          · constructor <;> omega
          · exact h2 k hk
    intro k hk
    rcases List.mem_cons.mp hk with rfl | hk
    · exact (main r k).1
    · exact (main r k0).2 k hk

/-- `lookup` finds the binding of a key that occurs in a list with unique
keys. -/
theorem lookup_eq_some_of_mem_nodup (l : List (V2 × C)) (k : V2) (v : C)
    (hnd : (l.map Prod.fst).Nodup) (hmem : (k, v) ∈ l) : l.lookup k = some v := by
  induction l with
  | nil => simp at hmem
  | cons kv t ih =>
    obtain ⟨k0, v0⟩ := kv
    rcases List.mem_cons.mp hmem with h | h
    · obtain ⟨rfl, rfl⟩ := Prod.mk.injEq .. ▸ h
      simp [List.lookup]
    · have hk : k ≠ k0 := by
        rintro rfl
        exact (List.nodup_cons.mp hnd).1 (List.mem_map.mpr ⟨(k, v), h, rfl⟩)
      have hbeq : (k == k0) = false := by simp [hk]
      simpa [List.lookup, hbeq] using ih (List.nodup_cons.mp hnd).2 h

/-- `lookup` is `find?` on the key projected to the value. -/
theorem lookup_eq_find? (l : List (V2 × C)) (k : V2) :
    l.lookup k = (l.find? (fun pc => pc.1 == k)).map Prod.snd := by
  induction l with
  | nil => rfl
  | cons kv t ih =>
    obtain ⟨k0, v0⟩ := kv
    by_cases h : k = k0
    · subst h
      simp [List.lookup, List.find?_cons]
    · have hbeq : (k == k0) = false := by simp [h]
      have hbeq2 : (k0 == k) = false := by simp [Ne.symm h]
      simp [List.lookup, List.find?_cons, hbeq, hbeq2, ih]

/-- `find?` only depends on the pointwise behaviour of the predicate. -/
theorem find?_ext (l : List α) (p q : α → Bool) (h : ∀ a ∈ l, p a = q a) :
    l.find? p = l.find? q := by
  induction l with
  | nil => rfl
  | cons a t ih =>
    rw [List.find?_cons, List.find?_cons, h a (by simp)]
    cases q a
    · exact ih (fun b hb => h b (by simp [hb]))
    · rfl

/-- `dimension` only depends on the storage length and the width. -/
theorem Grid.dimension_eq_of (g g2 : Grid C)
    (hlen : g.inner.length = g2.inner.length) (hw : g.width = g2.width) :
    g.dimension = g2.dimension := by
  unfold Grid.dimension
  rw [hlen, hw]

/-- `contains` only depends on the storage length and the width. -/
theorem Grid.contains_eq_of (g g2 : Grid C) (p : V2)
    (hlen : g.inner.length = g2.inner.length) (hw : g.width = g2.width) :
    g.contains p = g2.contains p := by
  unfold Grid.contains
  rw [Grid.dimension_eq_of g g2 hlen hw]

/-- Bounds extracted from a successful `contains` check. -/
theorem Grid.contains_bounds (g : Grid C) (p : V2) (h : g.contains p = true) :
    0 ≤ p.x ∧ 0 ≤ p.y ∧ p.x.toNat < g.width ∧
    p.y.toNat < g.inner.length / g.width ∧ g.inner.length ≠ 0 := by
  have h2 := (Grid.contains_iff g p).mp h
  unfold Grid.dimension at h2
  by_cases hlen : g.inner.length = 0
  · rw [if_pos hlen] at h2
    dsimp only at h2
    omega
  · rw [if_neg hlen] at h2
    dsimp only at h2
    exact ⟨h2.1, h2.2.1, by omega, by omega, hlen⟩

/-- Two in-bounds points with the same flat index are equal. -/
theorem Grid.idx_inj (g : Grid C) (p q : V2)
    (hp : g.contains p = true) (hq : g.contains q = true)
    (h : g.idx p.y.toNat p.x.toNat = g.idx q.y.toNat q.x.toNat) : p = q := by
  obtain ⟨hpx, hpy, hpxw, hpyh, hlen⟩ := Grid.contains_bounds g p hp
  obtain ⟨hqx, hqy, hqxw, hqyh, -⟩ := Grid.contains_bounds g q hq
  have hw : 0 < g.width := by omega
  unfold Grid.idx at h
  have hyy : p.y.toNat = q.y.toNat := by
    have e1 : (p.y.toNat * g.width + p.x.toNat) / g.width = p.y.toNat := by
      rw [Nat.mul_comm p.y.toNat g.width, Nat.mul_add_div hw,
        Nat.div_eq_of_lt hpxw]
      omega
    have e2 : (q.y.toNat * g.width + q.x.toNat) / g.width = q.y.toNat := by
      rw [Nat.mul_comm q.y.toNat g.width, Nat.mul_add_div hw,
        Nat.div_eq_of_lt hqxw]
      omega
    rw [← e1, ← e2, h]
  have hxx : p.x.toNat = q.x.toNat := by
    rw [hyy] at h
    omega
  obtain ⟨px, py⟩ := p
  obtain ⟨qx, qy⟩ := q
  simp only [V2.mk.injEq]
  simp only at hpx hpy hqx hqy hxx hyy
  omega

/-- `set?` succeeds at an in-bounds point, preserves the shape, and changes
exactly the targeted cell. -/
theorem Grid.set?_spec (g : Grid C) (p : V2) (c : C) (hp : g.contains p = true) :
    ∃ g2, g.set? p c = some g2 ∧ g2.width = g.width ∧
      g2.inner.length = g.inner.length ∧
      ∀ q, g2.indexAt q = if q = p then some c else g.indexAt q := by
  refine ⟨⟨g.inner.set (g.idx p.y.toNat p.x.toNat) c, g.width⟩,
    by unfold Grid.set?; rw [if_pos hp], rfl, by simp, ?_⟩
  intro q
  set g2 : Grid C := ⟨g.inner.set (g.idx p.y.toNat p.x.toNat) c, g.width⟩ with hg2def
  have hcon : g2.contains q = g.contains q :=
    Grid.contains_eq_of g2 g q (by simp [hg2def]) rfl
  have hidx : g2.idx q.y.toNat q.x.toNat = g.idx q.y.toNat q.x.toNat := rfl
  by_cases hq : g.contains q = true
  · have hq2 : g2.contains q = true := by rw [hcon]; exact hq
    unfold Grid.indexAt
    rw [if_pos hq2, if_pos hq, hidx]
    show (g.inner.set (g.idx p.y.toNat p.x.toNat) c)[g.idx q.y.toNat q.x.toNat]? = _
    rw [List.getElem?_set]
    by_cases hqp : q = p
    · subst hqp
      rw [if_pos rfl, if_pos rfl, if_pos (Grid.idx_lt_of_contains g q hq)]
    · have hne : g.idx p.y.toNat p.x.toNat ≠ g.idx q.y.toNat q.x.toNat := by
        intro he
        exact hqp (Grid.idx_inj g p q hp hq he).symm
      rw [if_neg hne, if_neg hqp]
  · have hq2 : ¬ g2.contains q = true := by rw [hcon]; exact hq
    have hqp : q ≠ p := by
      rintro rfl
      exact hq hp
    unfold Grid.indexAt
    rw [if_neg hq2, if_neg hqp, if_neg hq]

/-- Flat index lookup in the concatenation of equal-length rows is a
two-level lookup. -/
theorem flatten_getElem? (rows : List (List C)) (w : Nat)
    (hrows : ∀ r ∈ rows, r.length = w) (y x : Nat) (hx : x < w) :
    rows.flatten[y * w + x]? = rows[y]?.bind (fun r => r[x]?) := by
  induction rows generalizing y with
  | nil => simp
  | cons r rest ih =>
    have hr : r.length = w := hrows r (List.mem_cons_self r rest)
    rcases y with _ | y
    · rw [List.flatten_cons, Nat.zero_mul, Nat.zero_add,
        List.getElem?_append_left (by omega)]
      simp
    · rw [List.flatten_cons]
      have hge : r.length ≤ (y + 1) * w + x := by
        rw [Nat.succ_mul]
        omega
      rw [List.getElem?_append_right hge]
      have he : (y + 1) * w + x - r.length = y * w + x := by
        rw [Nat.succ_mul]
        omega
      rw [he, ih (fun r2 hr2 => hrows r2 (List.mem_cons_of_mem r hr2)) y]
      simp

/-- The storage size of a grid whose rows all have length `w`. -/
theorem length_flatten_of_uniform (rows : List (List C)) (w : Nat)
    (h : ∀ r ∈ rows, r.length = w) :
    rows.flatten.length = rows.length * w := by
  induction rows with
  | nil => simp
  | cons r rest ih =>
    rw [List.flatten_cons, List.length_append,
      ih (fun r2 h2 => h r2 (List.mem_cons_of_mem r h2)),
      h r (List.mem_cons_self r rest), List.length_cons]
    ring

/-- `new_with_dimensions` with a positive dimension: it succeeds, has the
requested dimension, and holds `f p` at every in-bounds `p`. -/
theorem Grid.new_with_dimensions_spec (C : Type) (dim : V2) (f : V2 → C)
    (hx : 1 ≤ dim.x) (hy : 1 ≤ dim.y) :
    ∃ G, Grid.new_with_dimensions dim f = some G ∧
      G.width = dim.x.toNat ∧
      G.inner.length = dim.y.toNat * dim.x.toNat ∧
      G.dimension = dim ∧
      ∀ p : V2, G.contains p = true → G.indexAt p = some (f p) := by
  have hw : 0 < dim.x.toNat := by omega
  have hh : 0 < dim.y.toNat := by omega
  have hrows : ∀ r ∈ Grid.rowsFor dim f, r.length = dim.x.toNat := by
    intro r hr
    obtain ⟨y, hy2, rfl⟩ := List.mem_map.mp hr
    simp
  have hlenrows : (Grid.rowsFor dim f).length = dim.y.toNat := by
    unfold Grid.rowsFor
    simp
  have hlenflat : (Grid.rowsFor dim f).flatten.length = dim.y.toNat * dim.x.toNat := by
    rw [length_flatten_of_uniform _ dim.x.toNat hrows, hlenrows]
  have hnew : Grid.new_with_dimensions dim f =
      some ⟨(Grid.rowsFor dim f).flatten, dim.x.toNat⟩ := by
    unfold Grid.new_with_dimensions
    cases hr : Grid.rowsFor dim f with
    | nil =>
      exfalso
      have := congrArg List.length hr
      rw [hlenrows] at this
      simp at this
      omega
    | cons a t =>
      have ha : a.length = dim.x.toNat := hrows a (by rw [hr]; exact List.mem_cons_self a t)
      have hstep : Grid.new (a :: t) = some ⟨(a :: t).flatten, a.length⟩ := rfl
      rw [hstep, ha]
  refine ⟨⟨(Grid.rowsFor dim f).flatten, dim.x.toNat⟩, hnew, rfl, hlenflat, ?_, ?_⟩
  · unfold Grid.dimension
    have hne : (Grid.rowsFor dim f).flatten.length ≠ 0 := by
      rw [hlenflat]
      positivity
    rw [if_neg hne]
    simp only [hlenflat]
    rw [Nat.mul_div_cancel _ hw,
      Int.toNat_of_nonneg (by omega : (0 : Int) ≤ dim.x),
      Int.toNat_of_nonneg (by omega : (0 : Int) ≤ dim.y)]
  · intro p hp
    obtain ⟨hpx, hpy, hpxw, hpyh, -⟩ :=
      Grid.contains_bounds ⟨(Grid.rowsFor dim f).flatten, dim.x.toNat⟩ p hp
    simp only [hlenflat] at hpyh
    rw [Nat.mul_div_cancel _ hw] at hpyh
    unfold Grid.indexAt
    rw [if_pos hp]
    show (Grid.rowsFor dim f).flatten[p.y.toNat * dim.x.toNat + p.x.toNat]? = _
    rw [flatten_getElem? _ dim.x.toNat hrows p.y.toNat p.x.toNat hpxw]
    unfold Grid.rowsFor
    rw [List.getElem?_map, List.getElem?_range hpyh]
    simp only [Option.map_some', Option.some_bind]
    rw [List.getElem?_map, List.getElem?_range hpxw]
    simp only [Option.map_some']
    congr 1
    rw [Int.toNat_of_nonneg hpx, Int.toNat_of_nonneg hpy]

/-- Subtracting the same vector is injective. -/
theorem V2.sub_right_cancel {a b c : V2} (h : a - c = b - c) : a = b := by
  obtain ⟨ax, ay⟩ := a
  obtain ⟨bx, by2⟩ := b
  obtain ⟨cx, cy⟩ := c
  simp only [V2.sub_def, V2.mk.injEq] at h ⊢
  omega

/-- Writing a list of entries with distinct keys at in-bounds positions
through the panicking index-assignment: the fold succeeds, keeps the shape,
and the final cell at `q` holds the entry mapped to `q` when there is one
and the original cell otherwise. -/
theorem foldlOption_set_spec (C : Type) (kvs : List (V2 × C)) (mn : V2) (acc : Grid C)
    (hin : ∀ pc ∈ kvs, acc.contains (pc.1 - mn) = true)
    (hnd : (kvs.map Prod.fst).Nodup) :
    ∃ G, foldlOption (fun acc2 pc => acc2.set? (pc.1 - mn) pc.2) acc kvs = some G ∧
      G.width = acc.width ∧ G.inner.length = acc.inner.length ∧
      ∀ q, G.indexAt q =
        match kvs.find? (fun pc => pc.1 - mn == q) with
        | some pc => some pc.2
        | none => acc.indexAt q := by
  induction kvs generalizing acc with
  | nil => exact ⟨acc, rfl, rfl, rfl, fun q => rfl⟩
  | cons pc0 rest ih =>
    have hc0 : acc.contains (pc0.1 - mn) = true := hin pc0 (List.mem_cons_self _ _)
    obtain ⟨acc2, hset, hw2, hlen2, hcell2⟩ := Grid.set?_spec acc (pc0.1 - mn) pc0.2 hc0
    have hconeq : ∀ r, acc2.contains r = acc.contains r := fun r =>
      Grid.contains_eq_of acc2 acc r hlen2 hw2
    have hin2 : ∀ pc ∈ rest, acc2.contains (pc.1 - mn) = true := by
      intro pc hpc
      rw [hconeq]
      exact hin pc (List.mem_cons_of_mem _ hpc)
    obtain ⟨G, hfold, hw3, hlen3, hcell3⟩ := ih acc2 hin2 (List.nodup_cons.mp hnd).2
    refine ⟨G, ?_, hw3.trans hw2, hlen3.trans hlen2, ?_⟩
    · show foldlOption _ acc (pc0 :: rest) = some G
      unfold foldlOption
      rw [hset]
      exact hfold
    · intro q
      rw [hcell3 q]
      cases hq0 : (pc0.1 - mn == q) with
      | true =>
        obtain hq0' : pc0.1 - mn = q := by simpa using hq0
        have hrest : rest.find? (fun pc => pc.1 - mn == q) = none := by
          rw [List.find?_eq_none]
          intro pc hpc
          have hkne : pc.1 ≠ pc0.1 := by
            intro he
            exact (List.nodup_cons.mp hnd).1 (List.mem_map.mpr ⟨pc, hpc, he⟩)
          have hne2 : pc.1 - mn ≠ q := fun he2 =>
            hkne (V2.sub_right_cancel (he2.trans hq0'.symm))
          simpa using hne2
        rw [hrest]
        simp only [List.find?_cons, hq0]
        rw [hcell2 q, if_pos hq0'.symm]
      | false =>
        simp only [List.find?_cons, hq0]
        cases hf : rest.find? (fun pc => pc.1 - mn == q) with
        | some pc => rfl
        | none =>
          rw [hcell2 q, if_neg]
          intro he
          rw [← he] at hq0
          simp at hq0

/-- Moving a subtraction across an equation of vectors. -/
theorem V2.sub_eq_iff {a c q : V2} : a - c = q ↔ a = c + q := by
  obtain ⟨ax, ay⟩ := a
  obtain ⟨cx, cy⟩ := c
  obtain ⟨qx, qy⟩ := q
  simp only [V2.sub_def, V2.add_def, V2.mk.injEq]
  omega

/-- C8: converting a non-empty sparse grid (unique keys) to a dense grid
succeeds and produces a grid of the bounding-box dimension in which the
cell at `q` is the value stored under the key `min + q` when that key is
populated and the default otherwise; in particular every populated key's
value sits at `key - min`. -/
theorem sparse_to_dense_spec (C : Type) (g : SparseGrid C)
    (hne : g.inner ≠ []) (hnd : (g.inner.map Prod.fst).Nodup) :
    ∃ (G : Grid C) (dim mn : V2),
      g.dimension = some dim ∧ minElementwise g.keys = some mn ∧
      sparseGridToGrid g = some G ∧
      G.dimension = dim ∧
      (∀ q, G.contains q = true →
        G.indexAt q = some ((g.inner.lookup (mn + q)).getD g.default)) ∧
      (∀ pc ∈ g.inner, G.indexAt (pc.1 - mn) = some pc.2) := by
  have hkne : g.keys ≠ [] := by simpa [SparseGrid.keys] using hne
  cases hkeys : g.keys with
  | nil => exact absurd hkeys hkne
  | cons k0 r =>
    have hmn : minElementwise g.keys = some (r.foldl V2.pmin k0) := by
      rw [hkeys]
      rfl
    have hmx : maxElementwise g.keys = some (r.foldl V2.pmax k0) := by
      rw [hkeys]
      rfl
    set mn : V2 := r.foldl V2.pmin k0 with hmndef
    set mx : V2 := r.foldl V2.pmax k0 with hmxdef
    set dim : V2 := mx - mn + ⟨1, 1⟩ with hdimdef
    have hdim : g.dimension = some dim := by
      unfold SparseGrid.dimension
      rw [hmx, hmn]
    have hmnle := minElementwise_le g.keys mn hmn
    have hmxge := le_maxElementwise g.keys mx hmx
    have hk0 : k0 ∈ g.keys := by
      rw [hkeys]
      exact List.mem_cons_self _ _
    have hdimx : 1 ≤ dim.x ∧ 1 ≤ dim.y := by
      have h1 := hmnle k0 hk0
      have h2 := hmxge k0 hk0
      rw [hdimdef]
      simp only [V2.sub_def, V2.add_def]
      constructor <;> omega
    obtain ⟨base, hbase, hbw, hblen, hbdim, hbidx⟩ :=
      Grid.new_with_dimensions_spec C dim (fun _ => g.default) hdimx.1 hdimx.2
    have hin : ∀ pc ∈ g.inner, base.contains (pc.1 - mn) = true := by
      intro pc hpc
      have hkmem : pc.1 ∈ g.keys := List.mem_map.mpr ⟨pc, hpc, rfl⟩
      have h1 := hmnle pc.1 hkmem
      have h2 := hmxge pc.1 hkmem
      rw [Grid.contains_iff, hbdim, hdimdef]
      simp only [V2.sub_def, V2.add_def]
      refine ⟨?_, ?_, ?_, ?_⟩ <;> omega
    obtain ⟨G, hfold, hgw, hglen, hgcell⟩ :=
      foldlOption_set_spec C g.inner mn base hin hnd
    have hGdim : G.dimension = dim :=
      (Grid.dimension_eq_of G base hglen hgw).trans hbdim
    have hGcon : ∀ q2, G.contains q2 = base.contains q2 := fun q2 =>
      Grid.contains_eq_of G base q2 hglen hgw
    have htog : sparseGridToGrid g = some G := by
      have hbase2 : Grid.new_with_dimensions_uniform dim g.default = some base := by
        unfold Grid.new_with_dimensions_uniform
        exact hbase
      unfold sparseGridToGrid
      rw [hdim, hmn]
      show (match Grid.new_with_dimensions_uniform dim g.default with
        | some base => foldlOption (fun acc pc => acc.set? (pc.1 - mn) pc.2) base g.inner
        | none => none) = some G
      rw [hbase2]
      exact hfold
    have hmain : ∀ q, G.contains q = true →
        G.indexAt q = some ((g.inner.lookup (mn + q)).getD g.default) := by
      intro q hq
      rw [hgcell q]
      have hpred : ∀ pc ∈ g.inner,
          ((fun pc : V2 × C => pc.1 - mn == q) pc) =
          ((fun pc : V2 × C => pc.1 == mn + q) pc) := by
        intro pc _
        rw [Bool.eq_iff_iff]
        simp only [beq_iff_eq]
        exact V2.sub_eq_iff
      rw [find?_ext g.inner _ _ hpred]
      have hlk := lookup_eq_find? g.inner (mn + q)
      cases hf : g.inner.find? (fun pc => pc.1 == mn + q) with
      | some pc =>
        rw [hf] at hlk
        rw [hlk]
        rfl
      | none =>
        rw [hf] at hlk
        rw [hlk]
        have hbq : base.contains q = true := by
          rw [← hGcon]
          exact hq
        simpa using hbidx q hbq
    refine ⟨G, dim, mn, hdim, by rw [← hkeys]; exact hmn, htog, hGdim, hmain, ?_⟩
    intro pc hpc
    have hcq : G.contains (pc.1 - mn) = true := by
      rw [hGcon]
      exact hin pc hpc
    rw [hmain (pc.1 - mn) hcq]
    have he : mn + (pc.1 - mn) = pc.1 := (V2.sub_eq_iff.mp rfl).symm
    rw [he, lookup_eq_some_of_mem_nodup g.inner pc.1 pc.2 hnd hpc]
    rfl

/-- C8 witness: the spec's example — keys `(0,0) ↦ A` and `(2,3) ↦ B` with
default `Z` convert to a dense 3x4 grid with `A` at `(0,0)`, `B` at
`(2,3)`, and `Z` at (for instance) `(1,1)`. -/
theorem sparse_to_dense_witness :
    ∃ G : Grid Char, sparseGridToGrid sparseEx = some G ∧
      G.dimension = ⟨3, 4⟩ ∧
      G.indexAt ⟨0, 0⟩ = some 'A' ∧
      G.indexAt ⟨2, 3⟩ = some 'B' ∧
      G.indexAt ⟨1, 1⟩ = some 'Z' := by
  obtain ⟨G, dim, mn, hdim, hmn, htog, hGdim, hmain, hkey⟩ :=
    sparse_to_dense_spec Char sparseEx (by decide) (by decide)
  obtain rfl : dim = ⟨3, 4⟩ := by
    have h := (by decide : sparseEx.dimension = some (⟨3, 4⟩ : V2))
    rw [hdim] at h
    exact Option.some.inj h
  obtain rfl : mn = ⟨0, 0⟩ := by
    have h := (by decide : minElementwise sparseEx.keys = some (⟨0, 0⟩ : V2))
    rw [hmn] at h
    exact Option.some.inj h
  refine ⟨G, htog, hGdim, ?_, ?_, ?_⟩
  · have h := hkey (⟨0, 0⟩, 'A') (by decide)
    simpa using h
  · have h := hkey (⟨2, 3⟩, 'B') (by decide)
    have he : ((⟨2, 3⟩, 'B') : V2 × Char).1 - ⟨0, 0⟩ = (⟨2, 3⟩ : V2) := by decide
    rwa [he] at h
  · have hc : G.contains ⟨1, 1⟩ = true := by
      rw [Grid.contains_iff, hGdim]
      refine ⟨by norm_num, by norm_num, by norm_num, by norm_num⟩
    have h := hmain ⟨1, 1⟩ hc
    have he : (⟨0, 0⟩ : V2) + ⟨1, 1⟩ = (⟨1, 1⟩ : V2) := by decide
    rw [he] at h
    have hl : sparseEx.inner.lookup (⟨1, 1⟩ : V2) = none := by decide
    rw [hl] at h
    exact h

/-- The eight integer rotation/reflection matrices (signed permutation
matrices): the four quarter-turn rotations and the four axis/diagonal
reflections.  These are the unimodular matrices for which the transform
view's coordinate mappings are mutually inverse. -/
def rotRef : List Mat2 :=
  [⟨1, 0, 0, 1⟩, ⟨0, -1, 1, 0⟩, ⟨-1, 0, 0, -1⟩, ⟨0, 1, -1, 0⟩,
   ⟨1, 0, 0, -1⟩, ⟨-1, 0, 0, 1⟩, ⟨0, 1, 1, 0⟩, ⟨0, -1, -1, 0⟩]

/-- For a rotation/reflection matrix over a non-degenerate dimension, the
two `transform_keep_positive_quadrant` maps (with the matrix and with its
adjugate-times-determinant inverse over the reflected dimension) are
mutually inverse on all of the plane. -/
theorem tkpq_roundtrip (m minv : Mat2) (hm : m ∈ rotRef)
    (hinv : minv = (Mat2.mk m.d (-m.b) (-m.c) m.a).smul (m.a * m.d - m.b * m.c))
    (dim : V2) (hW : 1 ≤ dim.x) (hH : 1 ≤ dim.y) (p : V2) :
    transform_keep_positive_quadrant dim m
      (transform_keep_positive_quadrant
        ⟨iabs (m.transform dim).x, iabs (m.transform dim).y⟩ minv p) = p ∧
    transform_keep_positive_quadrant
      ⟨iabs (m.transform dim).x, iabs (m.transform dim).y⟩ minv
      (transform_keep_positive_quadrant dim m p) = p := by
  subst hinv
  obtain ⟨W, H⟩ := dim
  obtain ⟨px, py⟩ := p
  simp only at hW hH
  simp only [rotRef, List.mem_cons, List.not_mem_nil, or_false] at hm
  rcases hm with rfl | rfl | rfl | rfl | rfl | rfl | rfl | rfl <;>
    · constructor <;>
      · simp only [transform_keep_positive_quadrant, Mat2.transform, Mat2.smul,
          V2.sub_def, offc_eq, iabs, V2.mk.injEq]
        split_ifs <;> omega

/-- C1 (amended): for a TransformGrid built over a dense grid with a
rotation/reflection (signed permutation) matrix — not an arbitrary
unimodular one — the forward and inverse point mappings are mutually
inverse: `transform_point (inverse_point p) = p` for every point
addressable through the view and `inverse_point (transform_point q) = q`
for every in-bounds source point. -/
theorem transform_roundtrip_spec (C : Type) (g : Grid C) (m : Mat2)
    (hm : m ∈ rotRef) (tg : TransformGrid C)
    (htg : TransformGrid.from_grid g m = some tg) :
    (∀ p, tg.contains p = true → tg.transform_point (tg.inverse_point p) = p) ∧
    (∀ q, g.contains q = true → tg.inverse_point (tg.transform_point q) = q) := by
  simp only [TransformGrid.from_grid] at htg
  split at htg
  · obtain rfl := Option.some.inj htg
    have hdims : ∀ r : V2, g.contains r = true → 1 ≤ g.dimension.x ∧ 1 ≤ g.dimension.y := by
      intro r hr
      obtain ⟨h1, h2, h3, h4⟩ := (Grid.contains_iff g r).mp hr
      constructor <;> omega
    constructor
    · intro p hp
      unfold TransformGrid.contains at hp
      obtain ⟨hW, hH⟩ := hdims _ hp
      simp only [TransformGrid.transform_point, TransformGrid.inverse_point,
        TransformGrid.dimension]
      exact (tkpq_roundtrip m _ hm rfl g.dimension hW hH p).1
    · intro q hq
      obtain ⟨hW, hH⟩ := hdims q hq
      simp only [TransformGrid.transform_point, TransformGrid.inverse_point,
        TransformGrid.dimension]
      exact (tkpq_roundtrip m _ hm rfl g.dimension hW hH q).2
  · exact absurd htg (by simp)

/-- A uniform 5x9 grid (the grid of the source's point-transform test). -/
def gridU59 : Grid Unit := ⟨List.replicate 45 (), 5⟩

/-- C1 counterexample: the matrix `[[2,-1],[1,-1]]` is unimodular
(det `-1`), so `from_grid` accepts it, yet on the 5x9 grid the in-bounds
source point `(1,2)` does not round-trip: `inverse_point (transform_point
(1,2))` is `(0,0)`. -/
theorem transform_roundtrip_counterexample :
    Mat2.det ⟨2, -1, 1, -1⟩ = -1 ∧
    gridU59.contains ⟨1, 2⟩ = true ∧
    (TransformGrid.from_grid gridU59 ⟨2, -1, 1, -1⟩).map
      (fun tg => tg.inverse_point (tg.transform_point ⟨1, 2⟩)) = some ⟨0, 0⟩ ∧
    (⟨0, 0⟩ : V2) ≠ ⟨1, 2⟩ := by
  decide

/-- The quarter-turn view of the 5x9 grid, as `from_grid` builds it. -/
def tgU59 : TransformGrid Unit := ⟨⟨0, -1, 1, 0⟩, ⟨0, 1, -1, 0⟩, gridU59⟩

/-- C1 witness: the amended claim instantiated on the source's own test —
a quarter-turn view of a 5x9 grid — at the visible point `(8,0)` and the
source point `(1,2)`. -/
theorem transform_roundtrip_witness :
    tgU59.contains ⟨8, 0⟩ = true ∧
    tgU59.transform_point (tgU59.inverse_point ⟨8, 0⟩) = ⟨8, 0⟩ ∧
    gridU59.contains ⟨1, 2⟩ = true ∧
    tgU59.inverse_point (tgU59.transform_point ⟨1, 2⟩) = ⟨1, 2⟩ := by
  have h := transform_roundtrip_spec Unit gridU59 ⟨0, -1, 1, 0⟩ (by decide)
    tgU59 (by decide)
  exact ⟨by decide, h.1 ⟨8, 0⟩ (by decide), by decide, h.2 ⟨1, 2⟩ (by decide)⟩

/-- `str::split('\n')` over characters (always returns at least one piece). -/
def splitNl : List Char → List (List Char)
  | [] => [[]]
  | c :: rest =>
    if c = '\n' then [] :: splitNl rest
    else (c :: (splitNl rest).headD []) :: (splitNl rest).tail

/-- `str::trim`: whitespace stripped from both ends. -/
def trimList (l : List Char) : List Char :=
  ((l.dropWhile Char.isWhitespace).reverse.dropWhile Char.isWhitespace).reverse

/-- `Grid::read` (debug build): `input.find("\n").expect(..)` panics
(`none`) when the input holds no newline, else the width is the index of
the first newline in the *untrimmed* input; the cells are the mapped
characters of the trimmed input's newline-separated lines; the debug
assertion that every line's length equals the width panics (`none`) when
violated. -/
def Grid.read (input : List Char) (cell : Char → C) : Option (Grid C) :=
  match input.findIdx? (fun c => c == '\n') with
  | none => none
  | some width =>
    if (splitNl (trimList input)).all (fun ln => ln.length == width) then
      some ⟨((splitNl (trimList input)).map (fun ln => ln.map cell)).flatten, width⟩
    else none

/-- Lines joined by single newline separators: the well-formed text-input
shape of the spec ("one or more lines separated by a newline"). -/
def joinNl : List (List Char) → List Char
  | [] => []
  | [l] => l
  | l :: rest => l ++ '\n' :: joinNl rest

/-- `dropWhile` is the identity when the first element already fails the
predicate. -/
theorem dropWhile_eq_self_of_head (p : α → Bool) (l : List α) (c : α)
    (hc : l.head? = some c) (hp : p c = false) : l.dropWhile p = l := by
  cases l with
  | nil => simp at hc
  | cons a t =>
    obtain rfl : a = c := Option.some.inj hc
    rw [List.dropWhile_cons, hp]
    simp

/-- `dropWhile` swallows a prefix on which the predicate holds. -/
theorem dropWhile_append_of_all (p : α → Bool) (l1 l2 : List α)
    (h : ∀ a ∈ l1, p a = true) : (l1 ++ l2).dropWhile p = l2.dropWhile p := by
  induction l1 with
  | nil => rfl
  | cons a t ih =>
    rw [List.cons_append, List.dropWhile_cons, h a (List.mem_cons_self a t)]
    exact ih (fun b hb => h b (List.mem_cons_of_mem a hb))

/-- Trimming a string that starts and ends with non-whitespace and carries
only trailing whitespace recovers the body exactly. -/
theorem trimList_body_append_ws (body ws : List Char)
    (hb : body ≠ [])
    (hhead : ∀ c ∈ body.head?, c.isWhitespace = false)
    (hlast : ∀ c ∈ body.getLast?, c.isWhitespace = false)
    (hws : ∀ c ∈ ws, c.isWhitespace = true) :
    trimList (body ++ ws) = body := by
  unfold trimList
  obtain ⟨c, hc⟩ : ∃ c, body.head? = some c := by
    cases body with
    | nil => exact absurd rfl hb
    | cons a t => exact ⟨a, rfl⟩
  have hheadapp : (body ++ ws).head? = some c := by
    cases body with
    | nil => exact absurd rfl hb
    | cons a t => simpa using hc
  rw [dropWhile_eq_self_of_head _ _ c hheadapp (hhead c hc)]
  rw [List.reverse_append]
  rw [dropWhile_append_of_all _ ws.reverse body.reverse
    (fun a ha => hws a (List.mem_reverse.mp ha))]
  obtain ⟨d, hd⟩ : ∃ d, body.getLast? = some d := by
    cases hgl : body.getLast? with
    | some d => exact ⟨d, rfl⟩
    | none =>
      exact absurd (List.getLast?_eq_none_iff.mp hgl) hb
  rw [dropWhile_eq_self_of_head _ _ d (by rw [List.head?_reverse]; exact hd)
    (hlast d hd)]
  exact List.reverse_reverse body

/-- Splitting a newline-free string is the single piece. -/
theorem splitNl_no_newline (l : List Char) (h : ∀ c ∈ l, c ≠ '\n') :
    splitNl l = [l] := by
  induction l with
  | nil => rfl
  | cons c rest ih =>
    unfold splitNl
    rw [if_neg (h c (List.mem_cons_self c rest))]
    rw [ih (fun c2 hc2 => h c2 (List.mem_cons_of_mem c hc2))]
    rfl

/-- Splitting past a newline-free first line peels it off. -/
theorem splitNl_append_newline (l rest : List Char) (h : ∀ c ∈ l, c ≠ '\n') :
    splitNl (l ++ '\n' :: rest) = l :: splitNl rest := by
  induction l with
  | nil => simp [splitNl]
  | cons c t ih =>
    rw [List.cons_append]
    rw [show splitNl (c :: (t ++ '\n' :: rest)) =
      (if c = '\n' then [] :: splitNl (t ++ '\n' :: rest)
       else (c :: (splitNl (t ++ '\n' :: rest)).headD []) ::
         (splitNl (t ++ '\n' :: rest)).tail) from rfl]
    rw [if_neg (h c (List.mem_cons_self c t))]
    rw [ih (fun c2 hc2 => h c2 (List.mem_cons_of_mem c hc2))]
    rfl

/-- Splitting on newlines inverts joining with newlines (no line may
contain a newline). -/
theorem splitNl_joinNl (lines : List (List Char)) (hne : lines ≠ [])
    (h : ∀ ln ∈ lines, ∀ c ∈ ln, c ≠ '\n') :
    splitNl (joinNl lines) = lines := by
  induction lines with
  | nil => exact absurd rfl hne
  | cons l rest ih =>
    cases rest with
    | nil => exact splitNl_no_newline l (h l (List.mem_cons_self l []))
    | cons l2 r2 =>
      show splitNl (l ++ '\n' :: joinNl (l2 :: r2)) = _
      rw [splitNl_append_newline l _ (h l (List.mem_cons_self l _))]
      rw [ih (by simp) (fun ln hln c hc => h ln (List.mem_cons_of_mem l hln) c hc)]

/-- C2 (amended): for an input consisting of one or more newline-separated
lines of equal length `w ≥ 1`, whose first character and last character are
not whitespace and whose lines contain no newline, followed by optional
trailing whitespace — and in which the first newline of the whole input
occurs exactly at position `w` (so the input has no leading whitespace and,
if it is a single line, the trailing whitespace must begin with a newline)
— `read` succeeds, applies the cell mapper to every character of the
trimmed input in row-major order, and the resulting dimension is `(w, n)`. -/
theorem grid_read_spec (C : Type) (cell : Char → C) (lines : List (List Char))
    (ws : List Char) (w : Nat)
    (hne : lines ≠ []) (hw : 1 ≤ w)
    (hlen : ∀ ln ∈ lines, ln.length = w)
    (hnl : ∀ ln ∈ lines, ∀ c ∈ ln, c ≠ '\n')
    (hhead : ∀ c ∈ (joinNl lines).head?, c.isWhitespace = false)
    (hlast : ∀ c ∈ (joinNl lines).getLast?, c.isWhitespace = false)
    (hws : ∀ c ∈ ws, c.isWhitespace = true)
    (hfind : (joinNl lines ++ ws).findIdx? (fun c => c == '\n') = some w) :
    ∃ G, Grid.read (joinNl lines ++ ws) cell = some G ∧
      G.inner = (lines.map (fun ln => ln.map cell)).flatten ∧
      G.width = w ∧
      G.dimension = ⟨(w : Int), (lines.length : Int)⟩ := by
  have hbody : joinNl lines ≠ [] := by
    cases lines with
    | nil => exact absurd rfl hne
    | cons l rest =>
      cases rest with
      | nil =>
        have hl := hlen l (List.mem_cons_self l [])
        show joinNl [l] ≠ []
        rw [show joinNl [l] = l from rfl]
        intro hemp
        rw [hemp] at hl
        simp at hl
        omega
      | cons l2 r2 =>
        show l ++ '\n' :: joinNl (l2 :: r2) ≠ []
        simp
  have htrim : trimList (joinNl lines ++ ws) = joinNl lines :=
    trimList_body_append_ws _ _ hbody hhead hlast hws
  have hsplit : splitNl (trimList (joinNl lines ++ ws)) = lines := by
    rw [htrim]
    exact splitNl_joinNl lines hne hnl
  have hall : (splitNl (trimList (joinNl lines ++ ws))).all
      (fun ln => ln.length == w) = true := by
    rw [hsplit, List.all_eq_true]
    intro ln hln
    simpa using hlen ln hln
  refine ⟨⟨(lines.map (fun ln => ln.map cell)).flatten, w⟩, ?_, rfl, rfl, ?_⟩
  · unfold Grid.read
    rw [hfind]
    show (if (splitNl (trimList (joinNl lines ++ ws))).all (fun ln => ln.length == w) then
        some (Grid.mk
          (((splitNl (trimList (joinNl lines ++ ws))).map (fun ln => ln.map cell)).flatten) w)
      else none) = _
    rw [if_pos hall, hsplit]
  · have hlens : ∀ r ∈ lines.map (fun ln => ln.map cell), r.length = w := by
      intro r hr
      obtain ⟨ln, hln, rfl⟩ := List.mem_map.mp hr
      simpa using hlen ln hln
    have hlenflat : (lines.map (fun ln => ln.map cell)).flatten.length
        = lines.length * w := by
      rw [length_flatten_of_uniform _ w hlens]
      simp
    unfold Grid.dimension
    have hn0 : lines.length ≠ 0 := by
      intro h0
      exact hne (List.length_eq_zero.mp h0)
    have hne2 : (lines.map (fun ln => ln.map cell)).flatten.length ≠ 0 := by
      rw [hlenflat]
      exact Nat.mul_ne_zero hn0 (by omega)
    rw [if_neg hne2]
    simp only [hlenflat]
    rw [Nat.mul_div_cancel _ (by omega : 0 < w)]

/-- C2 counterexample: `"ab"` is a single line of length 2 (no leading or
trailing whitespace, no newline anywhere), yet `read` panics instead of
succeeding: computing the width demands a newline in the input. -/
theorem grid_read_counterexample :
    (∀ c ∈ (['a', 'b'] : List Char), c.isWhitespace = false ∧ c ≠ '\n') ∧
    Grid.read ['a', 'b'] (fun c => c) = none := by
  decide

/-- C2 witness: the spec instantiated on the source's own test input
`"###\n...\n..."` with the identity cell mapper. -/
theorem grid_read_witness :
    ∃ G, Grid.read
        ['#', '#', '#', '\n', '.', '.', '.', '\n', '.', '.', '.']
        (fun c => c) = some G ∧
      G.inner = ['#', '#', '#', '.', '.', '.', '.', '.', '.'] ∧
      G.width = 3 ∧
      G.dimension = ⟨3, 3⟩ := by
  obtain ⟨G, hG, hinner, hwidth, hdim⟩ := grid_read_spec Char (fun c => c)
    [['#', '#', '#'], ['.', '.', '.'], ['.', '.', '.']] [] 3
    (by decide) (by decide) (by decide) (by decide) (by decide) (by decide)
    (by decide) (by decide)
  have he : joinNl [['#', '#', '#'], ['.', '.', '.'], ['.', '.', '.']]
      ++ ([] : List Char) =
      ['#', '#', '#', '\n', '.', '.', '.', '\n', '.', '.', '.'] := by decide
  rw [he] at hG
  exact ⟨G, hG, hinner.trans (by decide), hwidth, hdim.trans (by decide)⟩
